import Mathlib

/-!
Verification of the SignalForge DSP core against its specification.

The DSP primitives (`BiquadFilter`, `CircularBuffer`, `DelayLine`,
`EnvelopeFollower`) are shallow embeddings of the JavaScript classes in the
repository's DSP guidelines file; the script-sandbox static validation
(`ScriptSandbox.validateScript`) embeds the validation method of the
`ScriptSandbox` class in the security guidelines file.  Samples and delay
times are modelled as rationals where the source is executable arithmetic,
and as real numbers where the source uses transcendental functions
(`Math.cos`, `Math.sin`, `Math.exp`).  JavaScript's `%` operator (truncated
remainder) is modelled by `Int.tmod`.

The Scheduler's topological ordering and the graph serialization contract
have no implementation in the repository; they are modelled from the
specification's words and marked as such on their definitions.
-/

/-- Circular buffer of samples, embedding the `CircularBuffer` JavaScript
class: a fixed backing store (`new Float32Array(size)`, zero-initialised),
the fixed capacity `size`, and the current `writeIndex`. -/
structure CircularBuffer where
  buffer : List ℚ
  size : ℕ
  writeIndex : ℕ

/-- Embeds `new CircularBuffer(size)`: zero-filled store of length `size`,
write index 0. -/
def CircularBuffer.new (size : ℕ) : CircularBuffer :=
  { buffer := List.replicate size 0, size := size, writeIndex := 0 }

/-- Embeds `CircularBuffer.write(sample)`: store the sample at the write
index, then advance the write index by one modulo the capacity. -/
def CircularBuffer.write (cb : CircularBuffer) (sample : ℚ) : CircularBuffer :=
  { buffer := cb.buffer.set cb.writeIndex sample
    size := cb.size
    writeIndex := (cb.writeIndex + 1) % cb.size }

/-- Embeds `CircularBuffer.read(delay)`: read at index
`(writeIndex - delay + size) % size`.  JavaScript `%` is the truncated
remainder, `Int.tmod`; an out-of-range index read on a typed array (which
yields `undefined` in JavaScript, and is unreachable for the delays the
spec discusses) is modelled by the default value 0. -/
def CircularBuffer.read (cb : CircularBuffer) (delay : ℤ) : ℚ :=
  cb.buffer.getD (((cb.writeIndex : ℤ) - delay + cb.size).tmod cb.size).toNat 0

/-- Writes a whole list of samples in order, one `write` per sample. -/
def CircularBuffer.writeList (cb : CircularBuffer) (xs : List ℚ) : CircularBuffer :=
  xs.foldl CircularBuffer.write cb

/-- Delay line, embedding the `DelayLine` JavaScript class: a circular
buffer sized to the maximum delay, plus the (unused by `process`)
`delayInSamples` field. -/
structure DelayLine where
  buffer : CircularBuffer
  delayInSamples : ℕ

/-- Embeds `new DelayLine(maxDelayInSamples)`. -/
def DelayLine.new (maxDelayInSamples : ℕ) : DelayLine :=
  { buffer := CircularBuffer.new maxDelayInSamples, delayInSamples := 0 }

/-- Embeds `DelayLine.process(input, delayTime)`: write the input, then read
back at offset `Math.floor(delayTime)`.  Returns the output together with
the updated state. -/
def DelayLine.process (dl : DelayLine) (input : ℚ) (delayTime : ℚ) : ℚ × DelayLine :=
  let buf := dl.buffer.write input
  (buf.read ⌊delayTime⌋, { dl with buffer := buf })

/-- Biquad filter state, embedding the `BiquadFilter` JavaScript class:
sample rate, two-sample input and output history, and the five
feedforward/feedback coefficients. -/
structure BiquadFilter where
  fs : ℝ
  x1 : ℝ
  x2 : ℝ
  y1 : ℝ
  y2 : ℝ
  b0 : ℝ
  b1 : ℝ
  b2 : ℝ
  a1 : ℝ
  a2 : ℝ

/-- Embeds `new BiquadFilter(sampleRate)`: zero history, identity
coefficients. -/
def BiquadFilter.new (sampleRate : ℝ) : BiquadFilter :=
  { fs := sampleRate, x1 := 0, x2 := 0, y1 := 0, y2 := 0
    b0 := 1, b1 := 0, b2 := 0, a1 := 0, a2 := 0 }

/-- Embeds `BiquadFilter.setLowpass(frequency, Q)`: the RBJ cookbook lowpass
coefficients, normalised by `a0 = 1 + alpha`. -/
noncomputable def BiquadFilter.setLowpass (f : BiquadFilter) (frequency Q : ℝ) : BiquadFilter :=
  let omega := 2 * Real.pi * frequency / f.fs
  let cos_omega := Real.cos omega
  let sin_omega := Real.sin omega
  let alpha := sin_omega / (2 * Q)
  let a0 := 1 + alpha
  { f with
    b0 := (1 - cos_omega) / 2 / a0
    b1 := (1 - cos_omega) / a0
    b2 := (1 - cos_omega) / 2 / a0
    a1 := (-2 * cos_omega) / a0
    a2 := (1 - alpha) / a0 }

/-- Embeds `BiquadFilter.process(input)`: the second-order difference
equation, followed by the history shift.  Returns the output together with
the updated state. -/
def BiquadFilter.process (f : BiquadFilter) (input : ℝ) : ℝ × BiquadFilter :=
  let output := f.b0 * input + f.b1 * f.x1 + f.b2 * f.x2 - f.a1 * f.y1 - f.a2 * f.y2
  (output, { f with x2 := f.x1, x1 := input, y2 := f.y1, y1 := output })

/-- State of the filter after processing the first `n` samples of the input
sequence `u`. -/
def BiquadFilter.runState (f : BiquadFilter) (u : ℕ → ℝ) : ℕ → BiquadFilter
  | 0 => f
  | n + 1 => ((BiquadFilter.runState f u n).process (u n)).2

/-- Output sample `n` of the filter fed the input sequence `u`. -/
def BiquadFilter.output (f : BiquadFilter) (u : ℕ → ℝ) (n : ℕ) : ℝ :=
  ((f.runState u n).process (u n)).1

/-- Unit impulse input sequence: first input 1, all subsequent inputs 0. -/
noncomputable def impulse : ℕ → ℝ := fun n => if n = 0 then 1 else 0

/-- Biquad lowpass configured at cutoff = half the Nyquist frequency
(`fs / 4`) with Q = 0.707, exactly as in the spec's stability property. -/
noncomputable def lowpassHalfNyquist (fs : ℝ) : BiquadFilter :=
  (BiquadFilter.new fs).setLowpass (fs / 4) 0.707

/-- Envelope follower state, embedding the `EnvelopeFollower` JavaScript
class: the two per-sample coefficients and the current envelope. -/
structure EnvelopeFollower where
  attack : ℝ
  release : ℝ
  envelope : ℝ

/-- Embeds `new EnvelopeFollower(attackTime, releaseTime, sampleRate)`: the
time constants are converted to per-sample coefficients here, once. -/
noncomputable def EnvelopeFollower.new (attackTime releaseTime sampleRate : ℝ) : EnvelopeFollower :=
  { attack := Real.exp (-1 / (attackTime * sampleRate))
    release := Real.exp (-1 / (releaseTime * sampleRate))
    envelope := 0 }

/-- Embeds `EnvelopeFollower.process(input)`: rectify, choose the attack
coefficient when the rectified input exceeds the envelope and the release
coefficient otherwise, then one step of exponential smoothing.  Returns the
output together with the updated state. -/
noncomputable def EnvelopeFollower.process (e : EnvelopeFollower) (input : ℝ) :
    ℝ × EnvelopeFollower :=
  let inputAbs := |input|
  let rate := if inputAbs > e.envelope then e.attack else e.release
  let env := inputAbs + (e.envelope - inputAbs) * rate
  (env, { e with envelope := env })

/-- Envelope follower state after processing a whole list of samples. -/
noncomputable def EnvelopeFollower.runList (e : EnvelopeFollower) (xs : List ℝ) :
    EnvelopeFollower :=
  xs.foldl (fun s x => (s.process x).2) e

/-- Envelope follower constructed from the given time constants and sample
rate, after processing the samples `xs`. -/
noncomputable def followerAfter (attackTime releaseTime sampleRate : ℝ) (xs : List ℝ) :
    EnvelopeFollower :=
  (EnvelopeFollower.new attackTime releaseTime sampleRate).runList xs

/-- Shape of one entry of the `dangerous` pattern list of
`ScriptSandbox.validateScript`: either a literal followed by optional
whitespace and a final bracket character (the regexes with an embedded
white-space class), or a plain literal. -/
inductive ScriptPattern where
  | litThen : List Char → Char → ScriptPattern
  | lit : List Char → ScriptPattern

/-- ASCII part of the JavaScript regex white-space class. -/
def isJsSpace (c : Char) : Bool :=
  c = ' ' || c = '\t' || c = '\n' || c = '\r' || c = '\x0b' || c = '\x0c'

/-- Drops the leading white-space run of a character list. -/
def dropSpaces : List Char → List Char
  | [] => []
  | c :: cs => if isJsSpace c then dropSpaces cs else c :: cs

/-- Matches a literal against the front of a character list, returning the
remainder on success. -/
def litPrefix : List Char → List Char → Option (List Char)
  | [], s => some s
  | _ :: _, [] => none
  | p :: ps, c :: cs => if p = c then litPrefix ps cs else none

/-- One pattern matched at the very start of a character list. -/
def matchHere (p : ScriptPattern) (s : List Char) : Bool :=
  match p with
  | .litThen l last =>
    match litPrefix l s with
    | none => false
    | some rest =>
      match dropSpaces rest with
      | [] => false
      | c :: _ => c = last
  | .lit l => (litPrefix l s).isSome

/-- Regex `test`: the pattern matches at some position of the text. -/
def testPattern (p : ScriptPattern) : List Char → Bool
  | [] => matchHere p []
  | c :: t => matchHere p (c :: t) || testPattern p t

/-- Plain substring containment, used to state which scripts the validator
provably rejects. -/
def containsSeq (pat : List Char) : List Char → Bool
  | [] => (litPrefix pat []).isSome
  | c :: t => (litPrefix pat (c :: t)).isSome || containsSeq pat t

/-- The `dangerous` pattern list of `ScriptSandbox.validateScript`:
`eval\s*\(`, `Function\s*\(`, `constructor\s*\[`, `__proto__`,
`document\.`, `window\.`, `global\.`. -/
def dangerousPatterns : List ScriptPattern :=
  [ .litThen ['e', 'v', 'a', 'l'] '(',
    .litThen ['F', 'u', 'n', 'c', 't', 'i', 'o', 'n'] '(',
    .litThen ['c', 'o', 'n', 's', 't', 'r', 'u', 'c', 't', 'o', 'r'] '[',
    .lit ['_', '_', 'p', 'r', 'o', 't', 'o', '_', '_'],
    .lit ['d', 'o', 'c', 'u', 'm', 'e', 'n', 't', '.'],
    .lit ['w', 'i', 'n', 'd', 'o', 'w', '.'],
    .lit ['g', 'l', 'o', 'b', 'a', 'l', '.'] ]

/-- The two errors `ScriptSandbox.validateScript` can throw:
`badPatterns` stands for the thrown message about unsafe code patterns,
`tooLarge` for the thrown message about the maximum size. -/
inductive ScriptError where
  | badPatterns
  | tooLarge
deriving DecidableEq

/-- Embeds `ScriptSandbox.validateScript(code)`: throw on the first
dangerous pattern that tests positive anywhere in the code, then throw if
the code is longer than 10000 characters, otherwise return normally. -/
def ScriptSandbox.validateScript (code : List Char) : Except ScriptError Unit :=
  if dangerousPatterns.any (fun p => testPattern p code) then
    Except.error ScriptError.badPatterns
  else if code.length > 10000 then
    Except.error ScriptError.tooLarge
  else
    Except.ok ()

/-- Modelled from the spec: the repository contains no Scheduler or Graph
Model implementation (both are described only in prose), so the node able
to run next is modelled from the spec's words — among the nodes not yet
placed, one whose input-providing nodes are all already placed, taking the
earliest node in creation order (`nodes` lists node ids in creation order;
an edge `(u, v)` means the output of node `u` feeds an input of node
`v`). -/
def readyNode (nodes : List ℕ) (edges : List (ℕ × ℕ)) (placed : List ℕ) : Option ℕ :=
  nodes.find? fun v =>
    !(placed.contains v) && edges.all fun e => !(e.2 == v) || placed.contains e.1

/-- Modelled from the spec: repeatedly place a ready node, spending one
unit of fuel per placement. -/
def topoAux (nodes : List ℕ) (edges : List (ℕ × ℕ)) : ℕ → List ℕ → List ℕ
  | 0, placed => placed
  | fuel + 1, placed =>
    match readyNode nodes edges placed with
    | none => placed
    | some v => topoAux nodes edges fuel (placed ++ [v])

/-- Modelled from the spec: the deterministic topological ordering the
Scheduler uses, with ties broken stably by node creation order. -/
def topoOrder (nodes : List ℕ) (edges : List (ℕ × ℕ)) : List ℕ :=
  topoAux nodes edges nodes.length []

/-- A node is ready once it is not yet placed and all of its input
providers are placed. -/
def Ready (edges : List (ℕ × ℕ)) (placed : List ℕ) (v : ℕ) : Prop :=
  v ∉ placed ∧ ∀ e ∈ edges, e.2 = v → e.1 ∈ placed

/-- A node list respects the edges when every edge whose destination
appears in the list has its source in the list at an earlier position. -/
def RespectsEdges (edges : List (ℕ × ℕ)) (l : List ℕ) : Prop :=
  ∀ e ∈ edges, e.2 ∈ l → e.1 ∈ l ∧ l.indexOf e.1 < l.indexOf e.2

/-- Modelled from the spec: the closed set of node categories of the data
model. -/
inductive NodeCategory where
  | source
  | effect
  | analyzer
  | outputNode
  | control
  | subroutine
  | customScript
deriving DecidableEq

/-- Modelled from the spec: numeric tag of a node category in the
serialized document. -/
def NodeCategory.tag : NodeCategory → ℕ
  | .source => 0
  | .effect => 1
  | .analyzer => 2
  | .outputNode => 3
  | .control => 4
  | .subroutine => 5
  | .customScript => 6

/-- Modelled from the spec: decoding a category tag, failing on an unknown
tag. -/
def NodeCategory.ofTag : ℕ → Option NodeCategory
  | 0 => some .source
  | 1 => some .effect
  | 2 => some .analyzer
  | 3 => some .outputNode
  | 4 => some .control
  | 5 => some .subroutine
  | 6 => some .customScript
  | _ => none

/-- Modelled from the spec: what the serialization document records per
node — id, category, type identifier, parameter values, and position
metadata for the external editor. -/
structure NodeData where
  id : ℕ
  category : NodeCategory
  typeId : String
  params : List (String × ℚ)
  posX : ℚ
  posY : ℚ
deriving DecidableEq

/-- Modelled from the spec: a directed connection, recorded as source
node/port and destination node/port. -/
structure Connection where
  srcNode : ℕ
  srcPort : ℕ
  dstNode : ℕ
  dstPort : ℕ
deriving DecidableEq

/-- Modelled from the spec: the graph as the serialization boundary sees
it — the node list and the connection list. -/
structure Graph where
  nodes : List NodeData
  connections : List Connection
deriving DecidableEq

/-- Modelled from the spec: one serialized node record. -/
def serializeNode (n : NodeData) : ℕ × ℕ × String × List (String × ℚ) × ℚ × ℚ :=
  (n.id, n.category.tag, n.typeId, n.params, n.posX, n.posY)

/-- Modelled from the spec: one serialized connection record. -/
def serializeConn (c : Connection) : (ℕ × ℕ) × (ℕ × ℕ) :=
  ((c.srcNode, c.srcPort), (c.dstNode, c.dstPort))

/-- Modelled from the spec: the serialized graph document. -/
structure SerializedGraph where
  nodeRecords : List (ℕ × ℕ × String × List (String × ℚ) × ℚ × ℚ)
  connRecords : List ((ℕ × ℕ) × (ℕ × ℕ))

/-- Modelled from the spec: serializing a graph lists its node records and
connection records. -/
def serializeGraph (g : Graph) : SerializedGraph :=
  { nodeRecords := g.nodes.map serializeNode
    connRecords := g.connections.map serializeConn }

/-- Modelled from the spec: decoding one node record; fails on an unknown
category tag. -/
def deserializeNode (r : ℕ × ℕ × String × List (String × ℚ) × ℚ × ℚ) : Option NodeData :=
  match NodeCategory.ofTag r.2.1 with
  | none => none
  | some cat =>
    some { id := r.1, category := cat, typeId := r.2.2.1, params := r.2.2.2.1
           posX := r.2.2.2.2.1, posY := r.2.2.2.2.2 }

/-- Modelled from the spec: decoding the node record list, failing if any
record fails. -/
def decodeNodes : List (ℕ × ℕ × String × List (String × ℚ) × ℚ × ℚ) → Option (List NodeData)
  | [] => some []
  | r :: rs =>
    match deserializeNode r, decodeNodes rs with
    | some n, some ns => some (n :: ns)
    | _, _ => none

/-- Modelled from the spec: decoding one connection record. -/
def parseConn (r : (ℕ × ℕ) × (ℕ × ℕ)) : Connection :=
  { srcNode := r.1.1, srcPort := r.1.2, dstNode := r.2.1, dstPort := r.2.2 }

/-- Modelled from the spec: a valid graph has distinct node ids, and every
connection endpoint references a live node. -/
def GraphValid (g : Graph) : Prop :=
  (g.nodes.map NodeData.id).Nodup ∧
    ∀ c ∈ g.connections, c.srcNode ∈ g.nodes.map NodeData.id ∧
      c.dstNode ∈ g.nodes.map NodeData.id

instance instDecidableGraphValid (g : Graph) : Decidable (GraphValid g) := by
  unfold GraphValid
  infer_instance

/-- Modelled from the spec: deserializing a document rebuilds the nodes and
connections, then validates the result, failing on an invalid graph. -/
def deserializeGraph (doc : SerializedGraph) : Option Graph :=
  match decodeNodes doc.nodeRecords with
  | none => none
  | some ns =>
    let g : Graph := { nodes := ns, connections := doc.connRecords.map parseConn }
    if (g.nodes.map NodeData.id).Nodup ∧
        ∀ c ∈ g.connections, c.srcNode ∈ g.nodes.map NodeData.id ∧
          c.dstNode ∈ g.nodes.map NodeData.id then
      some g
    else none

/-! ## Circular buffer lemmas -/

lemma List.getD_set_self (l : List ℚ) (i : ℕ) (x : ℚ) (h : i < l.length) :
    (l.set i x).getD i 0 = x := by
  rw [List.getD_eq_getElem _ _ (by simpa using h)]
  simp

lemma List.getD_set_ne (l : List ℚ) (i j : ℕ) (x : ℚ) (h : i ≠ j) :
    (l.set i x).getD j 0 = l.getD j 0 := by
  by_cases hj : j < l.length
  · rw [List.getD_eq_getElem _ _ (by simpa using hj), List.getD_eq_getElem _ _ hj]
    exact List.getElem_set_ne h _
  · rw [List.getD_eq_default _ _ (by simpa using Nat.le_of_not_lt hj),
      List.getD_eq_default _ _ (Nat.le_of_not_lt hj)]

lemma Nat.mod_two_blocks (a N : ℕ) (_h0 : 0 < N) (h : a < 2 * N) :
    a % N = if a < N then a else a - N := by
  split_ifs with hlt
  · exact Nat.mod_eq_of_lt hlt
  · rw [Nat.mod_eq_sub_mod (Nat.le_of_not_lt hlt)]
    exact Nat.mod_eq_of_lt (by omega)

lemma CircularBuffer.size_write (cb : CircularBuffer) (x : ℚ) : (cb.write x).size = cb.size := rfl

lemma CircularBuffer.length_write (cb : CircularBuffer) (x : ℚ) :
    (cb.write x).buffer.length = cb.buffer.length := by
  simp [CircularBuffer.write]

lemma CircularBuffer.size_writeList (cb : CircularBuffer) (xs : List ℚ) :
    (cb.writeList xs).size = cb.size := by
  induction xs generalizing cb with
  | nil => rfl
  | cons x t ih => simpa [CircularBuffer.writeList] using ih (cb.write x)

lemma CircularBuffer.length_writeList (cb : CircularBuffer) (xs : List ℚ) :
    (cb.writeList xs).buffer.length = cb.buffer.length := by
  induction xs generalizing cb with
  | nil => rfl
  | cons x t ih =>
    simpa [CircularBuffer.writeList, CircularBuffer.length_write] using ih (cb.write x)

lemma CircularBuffer.writeIndex_writeList (cb : CircularBuffer) (xs : List ℚ)
    (hwi : cb.writeIndex < cb.size) :
    (cb.writeList xs).writeIndex = (cb.writeIndex + xs.length) % cb.size := by
  induction xs generalizing cb with
  | nil => simpa [CircularBuffer.writeList] using (Nat.mod_eq_of_lt hwi).symm
  | cons x t ih =>
    have h0 : 0 < cb.size := Nat.pos_of_ne_zero (by omega)
    have hwi2 : (cb.write x).writeIndex < (cb.write x).size :=
      Nat.mod_lt _ h0
    have := ih (cb.write x) hwi2
    simp only [CircularBuffer.writeList, List.foldl_cons] at this ⊢
    rw [this, CircularBuffer.size_write]
    show ((cb.writeIndex + 1) % cb.size + t.length) % cb.size = _
    rw [Nat.mod_add_mod]
    congr 1
    simp [List.length_cons]
    omega

lemma CircularBuffer.writeIndex_lt (cb : CircularBuffer) (xs : List ℚ)
    (hwi : cb.writeIndex < cb.size) :
    (cb.writeList xs).writeIndex < (cb.writeList xs).size := by
  rw [CircularBuffer.writeIndex_writeList cb xs hwi, CircularBuffer.size_writeList]
  exact Nat.mod_lt _ (by omega)


lemma CircularBuffer.read_eq_natIndex (cb : CircularBuffer) (d : ℕ) (hd : d ≤ cb.size)
    (h0 : 0 < cb.size) :
    cb.read d = cb.buffer.getD ((cb.writeIndex + cb.size - d) % cb.size) 0 := by
  unfold CircularBuffer.read
  have ha : (0 : ℤ) ≤ (cb.writeIndex : ℤ) - d + cb.size := by omega
  have hb : (0 : ℤ) ≤ (cb.size : ℤ) := by omega
  rw [Int.tmod_eq_emod ha hb]
  have h3 : ((cb.writeIndex : ℤ) - d + cb.size) = ((cb.writeIndex + cb.size - d : ℕ) : ℤ) := by
    omega
  rw [h3]
  have h4 : (((cb.writeIndex + cb.size - d : ℕ) : ℤ) % ((cb.size : ℕ) : ℤ)).toNat
      = (cb.writeIndex + cb.size - d) % cb.size := by
    omega
  rw [h4]

lemma CircularBuffer.read_write_one (cb : CircularBuffer) (x : ℚ)
    (hlen : cb.buffer.length = cb.size) (hwi : cb.writeIndex < cb.size) :
    (cb.write x).read ((1 : ℕ) : ℤ) = x := by
  have h0 : 0 < cb.size := by omega
  rw [CircularBuffer.read_eq_natIndex _ 1 (by simpa [CircularBuffer.size_write] using h0)
    (by simpa [CircularBuffer.size_write] using h0)]
  have hidx : ((cb.write x).writeIndex + (cb.write x).size - 1) % (cb.write x).size
      = cb.writeIndex := by
    show ((cb.writeIndex + 1) % cb.size + cb.size - 1) % cb.size = cb.writeIndex
    rcases Nat.lt_or_ge (cb.writeIndex + 1) cb.size with hlt | hge
    · rw [Nat.mod_eq_of_lt hlt]
      rw [Nat.mod_two_blocks _ _ h0 (by omega)]
      split_ifs <;> omega
    · have hN : cb.writeIndex + 1 = cb.size := by omega
      rw [hN, Nat.mod_self]
      rw [Nat.mod_eq_of_lt (by omega)]
      omega
  rw [hidx]
  show (cb.buffer.set cb.writeIndex x).getD cb.writeIndex 0 = x
  exact List.getD_set_self _ _ _ (by omega)

lemma CircularBuffer.read_write_ge_two (cb : CircularBuffer) (x : ℚ) (d : ℕ)
    (_hlen : cb.buffer.length = cb.size) (hwi : cb.writeIndex < cb.size)
    (hd2 : 2 ≤ d) (hdN : d ≤ cb.size) :
    (cb.write x).read d = cb.read (d - 1 : ℕ) := by
  have h0 : 0 < cb.size := by omega
  rw [CircularBuffer.read_eq_natIndex _ d (by simpa [CircularBuffer.size_write] using hdN)
    (by simpa [CircularBuffer.size_write] using h0)]
  rw [CircularBuffer.read_eq_natIndex _ (d - 1) (by omega) h0]
  have hidx : ((cb.write x).writeIndex + (cb.write x).size - d) % (cb.write x).size
      = (cb.writeIndex + cb.size - (d - 1)) % cb.size := by
    show ((cb.writeIndex + 1) % cb.size + cb.size - d) % cb.size = _
    rcases Nat.lt_or_ge (cb.writeIndex + 1) cb.size with hlt | hge
    · rw [Nat.mod_eq_of_lt hlt]
      congr 1
      omega
    · have hN : cb.writeIndex + 1 = cb.size := by omega
      rw [hN, Nat.mod_self]
      rw [Nat.mod_two_blocks _ _ h0 (by omega), Nat.mod_two_blocks _ _ h0 (by omega)]
      split_ifs <;> omega
  rw [hidx]
  have hne : cb.writeIndex ≠ (cb.writeIndex + cb.size - (d - 1)) % cb.size := by
    rw [Nat.mod_two_blocks _ _ h0 (by omega)]
    split_ifs <;> omega
  show (cb.buffer.set cb.writeIndex x).getD _ 0 = _
  exact List.getD_set_ne _ _ _ _ hne

lemma CircularBuffer.read_writeList_new (N : ℕ) (hN : 0 < N) (xs : List ℚ) (d : ℕ)
    (h1 : 1 ≤ d) (hdN : d ≤ N) (hdl : d ≤ xs.length) :
    ((CircularBuffer.new N).writeList xs).read d = xs.getD (xs.length - d) 0 := by
  induction xs using List.reverseRecOn generalizing d with
  | nil => simp at hdl; omega
  | append_singleton xs x ih =>
    have hstep : (CircularBuffer.new N).writeList (xs ++ [x])
        = ((CircularBuffer.new N).writeList xs).write x := by
      simp [CircularBuffer.writeList, List.foldl_append]
    have hsize : ((CircularBuffer.new N).writeList xs).size = N :=
      CircularBuffer.size_writeList _ _
    have hlen : ((CircularBuffer.new N).writeList xs).buffer.length
        = ((CircularBuffer.new N).writeList xs).size := by
      rw [CircularBuffer.length_writeList, hsize]
      simp [CircularBuffer.new]
    have hwi : ((CircularBuffer.new N).writeList xs).writeIndex
        < ((CircularBuffer.new N).writeList xs).size :=
      CircularBuffer.writeIndex_lt _ _ (by simpa [CircularBuffer.new] using hN)
    have hxlen : d ≤ xs.length + 1 := by simpa using hdl
    rcases Nat.lt_or_ge 1 d with hd2 | hd1
    · have hr := CircularBuffer.read_write_ge_two ((CircularBuffer.new N).writeList xs) x d
        hlen hwi (by omega) (by rw [hsize]; exact hdN)
      rw [hstep, hr]
      have hih := ih (d - 1) (by omega) (by omega) (by omega)
      rw [hih]
      have hlt : (xs ++ [x]).length - d < xs.length := by simp; omega
      have happ : (xs ++ [x]).getD ((xs ++ [x]).length - d) 0
          = xs.getD ((xs ++ [x]).length - d) 0 := by
        rw [List.getD_eq_getElem _ _ (by simp; omega), List.getD_eq_getElem _ _ hlt]
        exact List.getElem_append_left _
      rw [happ]
      have hidx : xs.length - (d - 1) = (xs ++ [x]).length - d := by
        simp
        omega
      rw [hidx]
    · have hd : d = 1 := by omega
      subst hd
      rw [hstep, CircularBuffer.read_write_one _ _ hlen hwi]
      have hlen1 : (xs ++ [x]).length - 1 = xs.length := by simp
      rw [hlen1, List.getD_eq_getElem _ _ (by simp)]
      simp

/-! ## Claim C10: circular buffer invariant and read-back -/

/-- C10: starting from a freshly constructed circular buffer of positive
capacity `N` and writing any sequence of samples, the capacity is unchanged,
the write index stays in `[0, N)`, and for every delay `d` with
`1 ≤ d ≤ N` that does not exceed the number of writes, `read d` returns
exactly the sample written `d` write-calls ago. -/
theorem circularBuffer_invariant_read (N : ℕ) (hN : 0 < N) (xs : List ℚ) :
    ((CircularBuffer.new N).writeList xs).size = N ∧
    ((CircularBuffer.new N).writeList xs).writeIndex < N ∧
    ∀ d : ℕ, 1 ≤ d → d ≤ N → d ≤ xs.length →
      ((CircularBuffer.new N).writeList xs).read d = xs.getD (xs.length - d) 0 := by
  refine ⟨?_, ?_, ?_⟩
  · rw [CircularBuffer.size_writeList]
    rfl
  · have h := CircularBuffer.writeIndex_lt (CircularBuffer.new N) xs
      (by simpa [CircularBuffer.new] using hN)
    rwa [CircularBuffer.size_writeList] at h
  · intro d h1 h2 h3
    exact CircularBuffer.read_writeList_new N hN xs d h1 h2 h3

/-- Witness for C10 at a concrete input: capacity 3, writes 5, 7, 9; reading
at delay 2 yields the sample written two calls ago. -/
theorem circularBuffer_invariant_read_witness :
    0 < 3 ∧ ((CircularBuffer.new 3).writeList [5, 7, 9]).read ((2 : ℕ) : ℤ) = 7 := by
  refine ⟨by norm_num, ?_⟩
  have h := (circularBuffer_invariant_read 3 (by norm_num) [5, 7, 9]).2.2 2
    (by norm_num) (by norm_num) (by norm_num)
  exact h.trans rfl

/-! ## Claim C1: delay-0 behaviour of the delay line -/

/-- C1 counterexample: on a freshly constructed delay line of capacity 4,
`process(1, 0)` does not return the input 1 — the read offset 0 wraps to
the slot about to be overwritten, the oldest slot, which still holds the
initial 0. -/
theorem delayLine_zero_delay_cex :
    ((DelayLine.new 4).process 1 0).1 = 0 ∧ ((DelayLine.new 4).process 1 0).1 ≠ 1 := by
  constructor
  · decide
  · decide

/-- C1 (amended): a delay line returns its input unchanged on the next
processed sample at delay 1, not at delay 0: after writing `x`, the read at
offset 1 is the just-written sample, for every well-formed delay line. -/
theorem delayLine_delay_one_returns_input (dl : DelayLine) (x : ℚ)
    (hlen : dl.buffer.buffer.length = dl.buffer.size)
    (hwi : dl.buffer.writeIndex < dl.buffer.size) :
    (dl.process x 1).1 = x := by
  show (dl.buffer.write x).read ⌊(1 : ℚ)⌋ = x
  rw [Int.floor_one]
  exact CircularBuffer.read_write_one dl.buffer x hlen hwi

/-- Witness for the amended C1 at a concrete input. -/
theorem delayLine_delay_one_witness :
    (DelayLine.new 4).buffer.writeIndex < (DelayLine.new 4).buffer.size ∧
    ((DelayLine.new 4).process 5 1).1 = 5 :=
  ⟨by decide, delayLine_delay_one_returns_input (DelayLine.new 4) 5 (by decide) (by decide)⟩

/-! ## Claim C5: fractional delay -/

/-- C5 counterexample: after writing 1 then processing input 2 with the
fractional delay 3/2, the code returns 2 (the sample at the truncated
offset 1), while linear interpolation between the two adjacent buffered
samples — `read 1 = 2` and `read 2 = 1`, weighted by the fractional part
1/2 — would give 3/2. -/
theorem delayLine_fractional_cex :
    ((((DelayLine.new 4).process 1 0).2).process 2 (3/2)).1 = 2 ∧
    (1 - ((3 : ℚ)/2 - 1)) * ((((DelayLine.new 4).process 1 0).2).process 2 (3/2)).2.buffer.read 1
      + ((3 : ℚ)/2 - 1) * ((((DelayLine.new 4).process 1 0).2).process 2 (3/2)).2.buffer.read 2
      = 3/2 ∧
    (2 : ℚ) ≠ 3/2 := by
  refine ⟨?_, ?_, by norm_num⟩
  · show ((((DelayLine.new 4).process 1 0).2).buffer.write 2).read ⌊(3/2 : ℚ)⌋ = 2
    rw [show ⌊(3/2 : ℚ)⌋ = 1 by norm_num]
    rfl
  · have hr1 : ((((DelayLine.new 4).process 1 0).2).process 2 (3/2)).2.buffer.read 1 = 2 := rfl
    have hr2 : ((((DelayLine.new 4).process 1 0).2).process 2 (3/2)).2.buffer.read 2 = 1 := rfl
    rw [hr1, hr2]
    norm_num

/-- C5 (amended): the delay line truncates fractional delays instead of
interpolating: for a fractional delay time `d` whose floor is a valid
offset, the output of `process` is exactly the single buffered sample
written `⌊d⌋` write-calls ago (the just-written input counting as one call
ago), with no contribution from the adjacent sample. -/
theorem delayLine_truncates_fractional (N : ℕ) (hN : 0 < N) (xs : List ℚ) (x : ℚ) (d : ℚ)
    (h1 : 1 ≤ ⌊d⌋) (h2 : ⌊d⌋ ≤ (N : ℤ)) (h3 : ⌊d⌋ ≤ (xs.length : ℤ) + 1) :
    ((DelayLine.mk ((CircularBuffer.new N).writeList xs) 0).process x d).1
      = (xs ++ [x]).getD ((xs ++ [x]).length - ⌊d⌋.toNat) 0 := by
  have hstep : ((CircularBuffer.new N).writeList xs).write x
      = (CircularBuffer.new N).writeList (xs ++ [x]) := by
    simp [CircularBuffer.writeList, List.foldl_append]
  show (((CircularBuffer.new N).writeList xs).write x).read ⌊d⌋ = _
  rw [hstep]
  rw [show ⌊d⌋ = ((⌊d⌋.toNat : ℕ) : ℤ) from (Int.toNat_of_nonneg (by omega)).symm]
  exact CircularBuffer.read_writeList_new N hN (xs ++ [x]) ⌊d⌋.toNat (by omega) (by omega)
    (by simp; omega)

/-- Witness for the amended C5 at a concrete input: capacity 4, history
10, 20, input 30, fractional delay 5/2; the output is the sample written
⌊5/2⌋ = 2 calls ago, namely 20. -/
theorem delayLine_truncates_witness :
    1 ≤ ⌊(5/2 : ℚ)⌋ ∧
    ((DelayLine.mk ((CircularBuffer.new 4).writeList [10, 20]) 0).process 30 (5/2)).1 = 20 := by
  refine ⟨by norm_num, ?_⟩
  have h := delayLine_truncates_fractional 4 (by norm_num) [10, 20] 30 (5/2)
    (by norm_num) (by norm_num) (by norm_num)
  rw [h, show ⌊(5/2 : ℚ)⌋ = 2 by norm_num]
  rfl

/-! ## Claim C9: oversized scripts are always rejected -/

/-- C9: static validation rejects every script longer than 10000
characters, whatever its content: either a dangerous pattern fires, or the
size check fires — in both cases `validateScript` throws. -/
theorem validateScript_rejects_oversized (code : List Char) (h : 10000 < code.length) :
    (ScriptSandbox.validateScript code).isOk = false := by
  unfold ScriptSandbox.validateScript
  split_ifs
  · rfl
  · rfl

/-- Witness for C9 at a concrete input: a script of 10001 characters is
rejected. -/
theorem validateScript_rejects_oversized_witness :
    10000 < (List.replicate 10001 'a').length ∧
    (ScriptSandbox.validateScript (List.replicate 10001 'a')).isOk = false := by
  constructor
  · rw [List.length_replicate]
    norm_num
  · exact validateScript_rejects_oversized _ (by rw [List.length_replicate]; norm_num)

/-! ## Claim C4: what static validation rejects -/

lemma litPrefix_append (l1 l2 s : List Char) :
    litPrefix (l1 ++ l2) s
      = match litPrefix l1 s with
        | none => none
        | some r => litPrefix l2 r := by
  induction l1 generalizing s with
  | nil => rfl
  | cons p ps ih =>
    cases s with
    | nil => rfl
    | cons c cs =>
      show (if p = c then litPrefix (ps ++ l2) cs else none) = _
      by_cases hpc : p = c
      · rw [if_pos hpc, ih cs]
        show _ = (match (if p = c then litPrefix ps cs else none) with
          | none => none
          | some r => litPrefix l2 r)
        rw [if_pos hpc]
      · rw [if_neg hpc]
        show _ = (match (if p = c then litPrefix ps cs else none) with
          | none => none
          | some r => litPrefix l2 r)
        rw [if_neg hpc]

lemma matchHere_litThen_of_litPrefix (l : List Char) (c : Char) (hns : isJsSpace c = false)
    (s : List Char) (h : (litPrefix (l ++ [c]) s).isSome = true) :
    matchHere (ScriptPattern.litThen l c) s = true := by
  rw [litPrefix_append] at h
  cases hls : litPrefix l s with
  | none => rw [hls] at h; simp at h
  | some r =>
    rw [hls] at h
    cases r with
    | nil => simp [litPrefix] at h
    | cons a t =>
      have hca : c = a := by
        by_cases hca : c = a
        · exact hca
        · simp [litPrefix, hca] at h
      subst hca
      simp [matchHere, hls, dropSpaces, hns]

lemma testPattern_litThen_of_containsSeq (l : List Char) (c : Char) (hns : isJsSpace c = false)
    (s : List Char) (h : containsSeq (l ++ [c]) s = true) :
    testPattern (ScriptPattern.litThen l c) s = true := by
  induction s with
  | nil => exact matchHere_litThen_of_litPrefix l c hns [] h
  | cons a t ih =>
    simp only [containsSeq, Bool.or_eq_true] at h
    simp only [testPattern, Bool.or_eq_true]
    rcases h with h1 | h2
    · exact Or.inl (matchHere_litThen_of_litPrefix l c hns (a :: t) h1)
    · exact Or.inr (ih h2)

lemma testPattern_lit_of_containsSeq (l : List Char) (s : List Char)
    (h : containsSeq l s = true) :
    testPattern (ScriptPattern.lit l) s = true := by
  induction s with
  | nil => exact h
  | cons a t ih =>
    simp only [containsSeq, Bool.or_eq_true] at h
    simp only [testPattern, Bool.or_eq_true]
    rcases h with h1 | h2
    · exact Or.inl h1
    · exact Or.inr (ih h2)

/-- C4 counterexample: the script `setTimeout(f)` contains a timer
construct, yet static validation accepts it — `validateScript` checks only
the seven fixed patterns and the size, none of which cover timers, network,
storage, or reflection APIs; `executeUserScript` then proceeds to execute
any script that validates. -/
theorem validateScript_accepts_timer_script :
    ScriptSandbox.validateScript
      ['s', 'e', 't', 'T', 'i', 'm', 'e', 'o', 'u', 't', '(', 'f', ')'] = Except.ok () := rfl

/-- C4 (amended): static validation rejects exactly the scripts caught by
its fixed checks, not every script touching timers/network/storage/
reflection: every script containing one of the substrings `eval(`,
`Function(`, `constructor[` (each also with optional whitespace before the
bracket), `__proto__`, `document.`, `window.`, or `global.` fails with the
unsafe-pattern error before any execution. -/
theorem validateScript_rejects_dangerous (code : List Char)
    (h : containsSeq ['e', 'v', 'a', 'l', '('] code = true ∨
      containsSeq ['F', 'u', 'n', 'c', 't', 'i', 'o', 'n', '('] code = true ∨
      containsSeq ['c', 'o', 'n', 's', 't', 'r', 'u', 'c', 't', 'o', 'r', '['] code = true ∨
      containsSeq ['_', '_', 'p', 'r', 'o', 't', 'o', '_', '_'] code = true ∨
      containsSeq ['d', 'o', 'c', 'u', 'm', 'e', 'n', 't', '.'] code = true ∨
      containsSeq ['w', 'i', 'n', 'd', 'o', 'w', '.'] code = true ∨
      containsSeq ['g', 'l', 'o', 'b', 'a', 'l', '.'] code = true) :
    ScriptSandbox.validateScript code = Except.error ScriptError.badPatterns := by
  have hany : dangerousPatterns.any (fun p => testPattern p code) = true := by
    rcases h with h | h | h | h | h | h | h
    · exact List.any_eq_true.mpr ⟨ScriptPattern.litThen ['e', 'v', 'a', 'l'] '(',
        by simp [dangerousPatterns],
        testPattern_litThen_of_containsSeq ['e', 'v', 'a', 'l'] '(' (by decide) code h⟩
    · exact List.any_eq_true.mpr
        ⟨ScriptPattern.litThen ['F', 'u', 'n', 'c', 't', 'i', 'o', 'n'] '(',
        by simp [dangerousPatterns],
        testPattern_litThen_of_containsSeq ['F', 'u', 'n', 'c', 't', 'i', 'o', 'n'] '('
          (by decide) code h⟩
    · exact List.any_eq_true.mpr
        ⟨ScriptPattern.litThen ['c', 'o', 'n', 's', 't', 'r', 'u', 'c', 't', 'o', 'r'] '[',
        by simp [dangerousPatterns],
        testPattern_litThen_of_containsSeq
          ['c', 'o', 'n', 's', 't', 'r', 'u', 'c', 't', 'o', 'r'] '[' (by decide) code h⟩
    · exact List.any_eq_true.mpr ⟨ScriptPattern.lit ['_', '_', 'p', 'r', 'o', 't', 'o', '_', '_'],
        by simp [dangerousPatterns],
        testPattern_lit_of_containsSeq ['_', '_', 'p', 'r', 'o', 't', 'o', '_', '_'] code h⟩
    · exact List.any_eq_true.mpr ⟨ScriptPattern.lit ['d', 'o', 'c', 'u', 'm', 'e', 'n', 't', '.'],
        by simp [dangerousPatterns],
        testPattern_lit_of_containsSeq ['d', 'o', 'c', 'u', 'm', 'e', 'n', 't', '.'] code h⟩
    · exact List.any_eq_true.mpr ⟨ScriptPattern.lit ['w', 'i', 'n', 'd', 'o', 'w', '.'],
        by simp [dangerousPatterns],
        testPattern_lit_of_containsSeq ['w', 'i', 'n', 'd', 'o', 'w', '.'] code h⟩
    · exact List.any_eq_true.mpr ⟨ScriptPattern.lit ['g', 'l', 'o', 'b', 'a', 'l', '.'],
        by simp [dangerousPatterns],
        testPattern_lit_of_containsSeq ['g', 'l', 'o', 'b', 'a', 'l', '.'] code h⟩
  unfold ScriptSandbox.validateScript
  rw [if_pos hany]

/-- Witness for the amended C4 at a concrete input: a script containing
`__proto__` is rejected with the unsafe-pattern error. -/
theorem validateScript_rejects_dangerous_witness :
    containsSeq ['_', '_', 'p', 'r', 'o', 't', 'o', '_', '_']
      ['x', '_', '_', 'p', 'r', 'o', 't', 'o', '_', '_'] = true ∧
    ScriptSandbox.validateScript ['x', '_', '_', 'p', 'r', 'o', 't', 'o', '_', '_']
      = Except.error ScriptError.badPatterns :=
  ⟨rfl, validateScript_rejects_dangerous _ (Or.inr (Or.inr (Or.inr (Or.inl rfl))))⟩

/-! ## Claim C6: envelope follower smoothing and one-time coefficient conversion -/

lemma EnvelopeFollower.attack_process (e : EnvelopeFollower) (x : ℝ) :
    (e.process x).2.attack = e.attack := rfl

lemma EnvelopeFollower.release_process (e : EnvelopeFollower) (x : ℝ) :
    (e.process x).2.release = e.release := rfl

lemma EnvelopeFollower.attack_runList (e : EnvelopeFollower) (xs : List ℝ) :
    (e.runList xs).attack = e.attack := by
  induction xs generalizing e with
  | nil => rfl
  | cons x t ih => simpa [EnvelopeFollower.runList] using ih (e.process x).2

lemma EnvelopeFollower.release_runList (e : EnvelopeFollower) (xs : List ℝ) :
    (e.runList xs).release = e.release := by
  induction xs generalizing e with
  | nil => rfl
  | cons x t ih => simpa [EnvelopeFollower.runList] using ih (e.process x).2

/-- C6: after any amount of processing, the follower's attack and release
coefficients are still exactly the one-time conversions
`exp(-1 / (time * sampleRate))` performed at construction (per-sample
processing never recomputes them), and each processed sample updates the
envelope by exponential smoothing of the rectified input
`env' = rate * env + (1 - rate) * |x|`, with `rate` the attack coefficient
when `|x|` exceeds the current envelope and the release coefficient
otherwise. -/
theorem envelopeFollower_smoothing (attackTime releaseTime sampleRate : ℝ)
    (xs : List ℝ) (x : ℝ) :
    (followerAfter attackTime releaseTime sampleRate xs).attack
        = Real.exp (-1 / (attackTime * sampleRate)) ∧
    (followerAfter attackTime releaseTime sampleRate xs).release
        = Real.exp (-1 / (releaseTime * sampleRate)) ∧
    ((followerAfter attackTime releaseTime sampleRate xs).process x).1
        = (if |x| > (followerAfter attackTime releaseTime sampleRate xs).envelope
            then (followerAfter attackTime releaseTime sampleRate xs).attack
            else (followerAfter attackTime releaseTime sampleRate xs).release)
            * (followerAfter attackTime releaseTime sampleRate xs).envelope
          + (1 - (if |x| > (followerAfter attackTime releaseTime sampleRate xs).envelope
            then (followerAfter attackTime releaseTime sampleRate xs).attack
            else (followerAfter attackTime releaseTime sampleRate xs).release)) * |x| := by
  refine ⟨EnvelopeFollower.attack_runList _ _, EnvelopeFollower.release_runList _ _, ?_⟩
  show |x| + ((followerAfter attackTime releaseTime sampleRate xs).envelope - |x|)
      * (if |x| > (followerAfter attackTime releaseTime sampleRate xs).envelope
          then (followerAfter attackTime releaseTime sampleRate xs).attack
          else (followerAfter attackTime releaseTime sampleRate xs).release) = _
  generalize (if |x| > (followerAfter attackTime releaseTime sampleRate xs).envelope
      then (followerAfter attackTime releaseTime sampleRate xs).attack
      else (followerAfter attackTime releaseTime sampleRate xs).release) = r
  ring

/-! ## Claim C2: biquad lowpass stability at half Nyquist -/

lemma BiquadFilter.coeffs_runState (f : BiquadFilter) (u : ℕ → ℝ) (n : ℕ) :
    (f.runState u n).b0 = f.b0 ∧ (f.runState u n).b1 = f.b1 ∧ (f.runState u n).b2 = f.b2 ∧
    (f.runState u n).a1 = f.a1 ∧ (f.runState u n).a2 = f.a2 := by
  induction n with
  | zero => exact ⟨rfl, rfl, rfl, rfl, rfl⟩
  | succ n ih => exact ih

lemma BiquadFilter.output_rec (f : BiquadFilter) (u : ℕ → ℝ) (n : ℕ) :
    f.output u (n + 2) = f.b0 * u (n + 2) + f.b1 * u (n + 1) + f.b2 * u n
      - f.a1 * f.output u (n + 1) - f.a2 * f.output u n := by
  have hc := BiquadFilter.coeffs_runState f u (n + 2)
  have h1 : (f.runState u (n + 2)).x1 = u (n + 1) := rfl
  have h2 : (f.runState u (n + 2)).x2 = u n := rfl
  have h3 : (f.runState u (n + 2)).y1 = f.output u (n + 1) := rfl
  have h4 : (f.runState u (n + 2)).y2 = f.output u n := rfl
  show (f.runState u (n + 2)).b0 * u (n + 2) + (f.runState u (n + 2)).b1 * (f.runState u (n + 2)).x1
      + (f.runState u (n + 2)).b2 * (f.runState u (n + 2)).x2
      - (f.runState u (n + 2)).a1 * (f.runState u (n + 2)).y1
      - (f.runState u (n + 2)).a2 * (f.runState u (n + 2)).y2 = _
  rw [h1, h2, h3, h4, hc.1, hc.2.1, hc.2.2.1, hc.2.2.2.1, hc.2.2.2.2]

lemma lowpassHalfNyquist_coeffs (fs : ℝ) (hfs : 0 < fs) :
    (lowpassHalfNyquist fs).b0 = 707/2414 ∧ (lowpassHalfNyquist fs).b1 = 707/1207 ∧
    (lowpassHalfNyquist fs).b2 = 707/2414 ∧ (lowpassHalfNyquist fs).a1 = 0 ∧
    (lowpassHalfNyquist fs).a2 = 207/1207 := by
  have homega : 2 * Real.pi * (fs / 4) / fs = Real.pi / 2 := by
    field_simp
    ring
  refine ⟨?_, ?_, ?_, ?_, ?_⟩
  · show (1 - Real.cos (2 * Real.pi * (fs / 4) / fs)) / 2
        / (1 + Real.sin (2 * Real.pi * (fs / 4) / fs) / (2 * 0.707)) = 707/2414
    rw [homega, Real.cos_pi_div_two, Real.sin_pi_div_two]
    norm_num
  · show (1 - Real.cos (2 * Real.pi * (fs / 4) / fs))
        / (1 + Real.sin (2 * Real.pi * (fs / 4) / fs) / (2 * 0.707)) = 707/1207
    rw [homega, Real.cos_pi_div_two, Real.sin_pi_div_two]
    norm_num
  · show (1 - Real.cos (2 * Real.pi * (fs / 4) / fs)) / 2
        / (1 + Real.sin (2 * Real.pi * (fs / 4) / fs) / (2 * 0.707)) = 707/2414
    rw [homega, Real.cos_pi_div_two, Real.sin_pi_div_two]
    norm_num
  · show (-2 * Real.cos (2 * Real.pi * (fs / 4) / fs))
        / (1 + Real.sin (2 * Real.pi * (fs / 4) / fs) / (2 * 0.707)) = 0
    rw [homega, Real.cos_pi_div_two]
    norm_num
  · show (1 - Real.sin (2 * Real.pi * (fs / 4) / fs) / (2 * 0.707))
        / (1 + Real.sin (2 * Real.pi * (fs / 4) / fs) / (2 * 0.707)) = 207/1207
    rw [homega, Real.sin_pi_div_two]
    norm_num

lemma lowpassHalfNyquist_output_zero (fs : ℝ) (hfs : 0 < fs) :
    BiquadFilter.output (lowpassHalfNyquist fs) impulse 0 = 707/2414 := by
  have hc := lowpassHalfNyquist_coeffs fs hfs
  show (lowpassHalfNyquist fs).b0 * impulse 0 + (lowpassHalfNyquist fs).b1 * (lowpassHalfNyquist fs).x1
      + (lowpassHalfNyquist fs).b2 * (lowpassHalfNyquist fs).x2
      - (lowpassHalfNyquist fs).a1 * (lowpassHalfNyquist fs).y1
      - (lowpassHalfNyquist fs).a2 * (lowpassHalfNyquist fs).y2 = 707/2414
  have hx1 : (lowpassHalfNyquist fs).x1 = 0 := rfl
  have hx2 : (lowpassHalfNyquist fs).x2 = 0 := rfl
  have hy1 : (lowpassHalfNyquist fs).y1 = 0 := rfl
  have hy2 : (lowpassHalfNyquist fs).y2 = 0 := rfl
  rw [hx1, hx2, hy1, hy2, hc.1, show impulse 0 = 1 from rfl]
  ring

lemma lowpassHalfNyquist_output_one (fs : ℝ) (hfs : 0 < fs) :
    BiquadFilter.output (lowpassHalfNyquist fs) impulse 1 = 707/1207 := by
  have hc := lowpassHalfNyquist_coeffs fs hfs
  have hcr := BiquadFilter.coeffs_runState (lowpassHalfNyquist fs) impulse 1
  show ((lowpassHalfNyquist fs).runState impulse 1).b0 * impulse 1
      + ((lowpassHalfNyquist fs).runState impulse 1).b1
        * ((lowpassHalfNyquist fs).runState impulse 1).x1
      + ((lowpassHalfNyquist fs).runState impulse 1).b2
        * ((lowpassHalfNyquist fs).runState impulse 1).x2
      - ((lowpassHalfNyquist fs).runState impulse 1).a1
        * ((lowpassHalfNyquist fs).runState impulse 1).y1
      - ((lowpassHalfNyquist fs).runState impulse 1).a2
        * ((lowpassHalfNyquist fs).runState impulse 1).y2 = 707/1207
  have hx1 : ((lowpassHalfNyquist fs).runState impulse 1).x1 = 1 := rfl
  have hx2 : ((lowpassHalfNyquist fs).runState impulse 1).x2 = 0 := rfl
  have hy2 : ((lowpassHalfNyquist fs).runState impulse 1).y2 = 0 := rfl
  rw [hx1, hx2, hy2, hcr.1, hcr.2.1, hcr.2.2.1, hcr.2.2.2.1, hcr.2.2.2.2]
  rw [hc.2.1, hc.2.2.2.1, show impulse 1 = 0 from rfl]
  ring

lemma lowpassHalfNyquist_output_impulse_rec (fs : ℝ) (hfs : 0 < fs) (n : ℕ) (hn : 1 ≤ n) :
    BiquadFilter.output (lowpassHalfNyquist fs) impulse (n + 2)
      = -(207/1207) * BiquadFilter.output (lowpassHalfNyquist fs) impulse n := by
  have hc := lowpassHalfNyquist_coeffs fs hfs
  rw [BiquadFilter.output_rec]
  rw [hc.2.2.2.1, hc.2.2.2.2]
  have hz2 : impulse (n + 2) = 0 := by simp [impulse]
  have hz1 : impulse (n + 1) = 0 := by simp [impulse]
  have hz0 : impulse n = 0 := by simp [impulse]; omega
  rw [hz2, hz1, hz0]
  ring

lemma lowpassHalfNyquist_output_two (fs : ℝ) (hfs : 0 < fs) :
    BiquadFilter.output (lowpassHalfNyquist fs) impulse 2
      = 707/2414 - (207/1207) * (707/2414) := by
  have hc := lowpassHalfNyquist_coeffs fs hfs
  have h := BiquadFilter.output_rec (lowpassHalfNyquist fs) impulse 0
  rw [hc.2.2.2.1, hc.2.2.2.2, hc.1, hc.2.1, hc.2.2.1] at h
  rw [lowpassHalfNyquist_output_zero fs hfs] at h
  rw [show impulse 2 = 0 from rfl, show impulse 1 = 0 from rfl,
    show impulse 0 = 1 from rfl] at h
  rw [h]
  ring

lemma lowpassHalfNyquist_impulse_pairs (fs : ℝ) (hfs : 0 < fs) (k : ℕ) :
    |BiquadFilter.output (lowpassHalfNyquist fs) impulse (2 * k + 1)| ≤ (207/1207 : ℝ) ^ k ∧
    |BiquadFilter.output (lowpassHalfNyquist fs) impulse (2 * k + 2)| ≤ (207/1207 : ℝ) ^ k := by
  induction k with
  | zero =>
    constructor
    · rw [show 2 * 0 + 1 = 1 by norm_num, lowpassHalfNyquist_output_one fs hfs, pow_zero]
      rw [abs_of_nonneg (by norm_num)]
      norm_num
    · rw [show 2 * 0 + 2 = 2 by norm_num, lowpassHalfNyquist_output_two fs hfs, pow_zero]
      rw [abs_of_nonneg (by norm_num)]
      norm_num
  | succ k ih =>
    have hr0 : (0 : ℝ) ≤ 207/1207 := by norm_num
    constructor
    · rw [show 2 * (k + 1) + 1 = (2 * k + 1) + 2 by ring,
        lowpassHalfNyquist_output_impulse_rec fs hfs (2 * k + 1) (by omega)]
      rw [abs_mul, abs_neg, abs_of_nonneg hr0, pow_succ, mul_comm ((207/1207 : ℝ) ^ k)]
      exact mul_le_mul_of_nonneg_left ih.1 hr0
    · rw [show 2 * (k + 1) + 2 = (2 * k + 2) + 2 by ring,
        lowpassHalfNyquist_output_impulse_rec fs hfs (2 * k + 2) (by omega)]
      rw [abs_mul, abs_neg, abs_of_nonneg hr0, pow_succ, mul_comm ((207/1207 : ℝ) ^ k)]
      exact mul_le_mul_of_nonneg_left ih.2 hr0

lemma lowpassHalfNyquist_impulse_bound (fs : ℝ) (hfs : 0 < fs) (n : ℕ) :
    |BiquadFilter.output (lowpassHalfNyquist fs) impulse (n + 1)| ≤ (207/1207 : ℝ) ^ (n / 2) := by
  rcases Nat.even_or_odd n with ⟨k, hk⟩ | ⟨k, hk⟩
  · rw [show n + 1 = 2 * k + 1 by omega, show n / 2 = k by omega]
    exact (lowpassHalfNyquist_impulse_pairs fs hfs k).1
  · rw [show n + 1 = 2 * k + 2 by omega, show n / 2 = k by omega]
    exact (lowpassHalfNyquist_impulse_pairs fs hfs k).2

/-- C2: the biquad lowpass at cutoff = half Nyquist (`fs / 4`), Q = 0.707,
fed a unit impulse, is stable: every output sample has magnitude at most 1,
from sample 1 on the magnitude two samples later is scaled down by the
factor 207/1207 < 1, and the output sequence tends to 0. -/
theorem biquad_lowpass_halfNyquist_stable (fs : ℝ) (hfs : 0 < fs) :
    (∀ n, |BiquadFilter.output (lowpassHalfNyquist fs) impulse n| ≤ 1) ∧
    (∀ n, 1 ≤ n → |BiquadFilter.output (lowpassHalfNyquist fs) impulse (n + 2)|
        ≤ (207/1207) * |BiquadFilter.output (lowpassHalfNyquist fs) impulse n|) ∧
    Filter.Tendsto (BiquadFilter.output (lowpassHalfNyquist fs) impulse)
      Filter.atTop (nhds 0) := by
  refine ⟨?_, ?_, ?_⟩
  · intro n
    cases n with
    | zero =>
      rw [lowpassHalfNyquist_output_zero fs hfs, abs_of_nonneg (by norm_num)]
      norm_num
    | succ m =>
      calc |BiquadFilter.output (lowpassHalfNyquist fs) impulse (m + 1)|
          ≤ (207/1207 : ℝ) ^ (m / 2) := lowpassHalfNyquist_impulse_bound fs hfs m
        _ ≤ 1 := pow_le_one₀ (by norm_num) (by norm_num)
  · intro n hn
    rw [lowpassHalfNyquist_output_impulse_rec fs hfs n hn, abs_mul, abs_neg,
      abs_of_nonneg (by norm_num : (0 : ℝ) ≤ 207/1207)]
  · have hdiv : Filter.Tendsto (fun n : ℕ => n / 2) Filter.atTop Filter.atTop := by
      rw [Filter.tendsto_atTop_atTop]
      intro b
      exact ⟨2 * b, fun a ha => by omega⟩
    have hg : Filter.Tendsto (fun n : ℕ => (207/1207 : ℝ) ^ (n / 2)) Filter.atTop (nhds 0) :=
      (tendsto_pow_atTop_nhds_zero_of_lt_one (by norm_num) (by norm_num)).comp hdiv
    have hshift : Filter.Tendsto
        (fun n => BiquadFilter.output (lowpassHalfNyquist fs) impulse (n + 1))
        Filter.atTop (nhds 0) :=
      squeeze_zero_norm
        (fun n => by simpa [Real.norm_eq_abs] using lowpassHalfNyquist_impulse_bound fs hfs n) hg
    exact (Filter.tendsto_add_atTop_iff_nat 1).mp hshift

/-- Witness for C2 at a concrete sample rate: 48000 Hz. -/
theorem biquad_lowpass_halfNyquist_witness :
    (0 : ℝ) < 48000 ∧ |BiquadFilter.output (lowpassHalfNyquist 48000) impulse 0| ≤ 1 :=
  ⟨by norm_num, (biquad_lowpass_halfNyquist_stable 48000 (by norm_num)).1 0⟩

/-! ## Claim C7: topological execution order of the Scheduler -/

lemma exists_min_rank (l : List ℕ) (f : ℕ → ℕ) (h : l ≠ []) :
    ∃ v ∈ l, ∀ w ∈ l, f v ≤ f w := by
  induction l with
  | nil => exact absurd rfl h
  | cons a t ih =>
    by_cases ht : t = []
    · subst ht
      refine ⟨a, by simp, ?_⟩
      intro w hw
      rw [List.mem_singleton.mp hw]
    · obtain ⟨v, hv, hmin⟩ := ih ht
      by_cases hav : f a ≤ f v
      · refine ⟨a, by simp, ?_⟩
        intro w hw
        rcases List.mem_cons.mp hw with hwa | hwt
        · rw [hwa]
        · exact le_trans hav (hmin w hwt)
      · refine ⟨v, List.mem_cons.mpr (Or.inr hv), ?_⟩
        intro w hw
        rcases List.mem_cons.mp hw with hwa | hwt
        · rw [hwa]
          exact le_of_lt (Nat.lt_of_not_le hav)
        · exact hmin w hwt

lemma readyPred_iff (edges : List (ℕ × ℕ)) (placed : List ℕ) (v : ℕ) :
    (!(placed.contains v) && edges.all fun e => !(e.2 == v) || placed.contains e.1) = true
      ↔ Ready edges placed v := by
  unfold Ready
  simp [List.all_eq_true]
  intro hv
  constructor
  · intro h e1 e2 he h2
    rcases h e1 e2 he with h' | h'
    · exact absurd h2 h'
    · exact h'
  · intro h e1 e2 he
    by_cases h2 : e2 = v
    · exact Or.inr (h e1 e2 he h2)
    · exact Or.inl h2

lemma readyNode_some (nodes : List ℕ) (edges : List (ℕ × ℕ)) (placed : List ℕ) (v : ℕ)
    (h : readyNode nodes edges placed = some v) :
    v ∈ nodes ∧ Ready edges placed v := by
  unfold readyNode at h
  refine ⟨List.mem_of_find?_eq_some h, ?_⟩
  have hp := List.find?_some h
  exact (readyPred_iff edges placed v).mp hp

lemma readyNode_none (nodes : List ℕ) (edges : List (ℕ × ℕ)) (placed : List ℕ)
    (h : readyNode nodes edges placed = none) :
    ∀ v ∈ nodes, ¬ Ready edges placed v := by
  unfold readyNode at h
  intro v hv hready
  have := List.find?_eq_none.mp h v hv
  exact this ((readyPred_iff edges placed v).mpr hready)

lemma respectsEdges_snoc (edges : List (ℕ × ℕ)) (placed : List ℕ) (v : ℕ)
    (hresp : RespectsEdges edges placed) (hv : v ∉ placed)
    (hready : ∀ e ∈ edges, e.2 = v → e.1 ∈ placed) :
    RespectsEdges edges (placed ++ [v]) := by
  intro e he hmem
  rcases List.mem_append.mp hmem with h2p | h2v
  · obtain ⟨h1p, hlt⟩ := hresp e he h2p
    refine ⟨List.mem_append.mpr (Or.inl h1p), ?_⟩
    rw [List.indexOf_append_of_mem h1p, List.indexOf_append_of_mem h2p]
    exact hlt
  · have h2 : e.2 = v := List.mem_singleton.mp h2v
    have h1p := hready e he h2
    refine ⟨List.mem_append.mpr (Or.inl h1p), ?_⟩
    rw [List.indexOf_append_of_mem h1p, h2, List.indexOf_append_of_not_mem hv]
    have hv0 : [v].indexOf v = 0 := by simp
    rw [hv0, Nat.add_zero]
    exact List.indexOf_lt_length.mpr h1p

lemma ready_of_unplaced (nodes : List ℕ) (edges : List (ℕ × ℕ)) (placed : List ℕ)
    (rank : ℕ → ℕ)
    (hed : ∀ e ∈ edges, e.1 ∈ nodes ∧ e.2 ∈ nodes)
    (hrank : ∀ e ∈ edges, rank e.1 < rank e.2)
    (u : ℕ) (hu : u ∈ nodes) (hup : u ∉ placed) :
    ∃ v ∈ nodes, Ready edges placed v := by
  have hne : nodes.filter (fun w => decide (w ∉ placed)) ≠ [] := by
    intro hnil
    have : u ∈ nodes.filter (fun w => decide (w ∉ placed)) := by
      rw [List.mem_filter]
      exact ⟨hu, by simpa using hup⟩
    rw [hnil] at this
    exact absurd this (List.not_mem_nil u)
  obtain ⟨v, hv, hmin⟩ := exists_min_rank (nodes.filter (fun w => decide (w ∉ placed))) rank hne
  have hvn : v ∈ nodes := (List.mem_filter.mp hv).1
  have hvp : v ∉ placed := by simpa using (List.mem_filter.mp hv).2
  refine ⟨v, hvn, hvp, ?_⟩
  intro e he h2
  by_contra h1p
  have h1f : e.1 ∈ nodes.filter (fun w => decide (w ∉ placed)) := by
    rw [List.mem_filter]
    exact ⟨(hed e he).1, by simpa using h1p⟩
  have hle := hmin e.1 h1f
  have hlt := hrank e he
  rw [h2] at hlt
  omega

lemma topoAux_spec (nodes : List ℕ) (edges : List (ℕ × ℕ)) (rank : ℕ → ℕ)
    (hed : ∀ e ∈ edges, e.1 ∈ nodes ∧ e.2 ∈ nodes)
    (hrank : ∀ e ∈ edges, rank e.1 < rank e.2)
    (_hnd : nodes.Nodup) :
    ∀ (fuel : ℕ) (placed : List ℕ),
      placed.Nodup → (∀ v ∈ placed, v ∈ nodes) → RespectsEdges edges placed →
      nodes.length ≤ placed.length + fuel →
      (topoAux nodes edges fuel placed).Nodup ∧
      (∀ v ∈ topoAux nodes edges fuel placed, v ∈ nodes) ∧
      RespectsEdges edges (topoAux nodes edges fuel placed) ∧
      (∀ v ∈ nodes, v ∈ topoAux nodes edges fuel placed) := by
  intro fuel
  induction fuel with
  | zero =>
    intro placed hpnd hsub hresp hlen
    have hsp : List.Subperm placed nodes := List.subperm_of_subset hpnd hsub
    have hperm : List.Perm placed nodes :=
      List.Subperm.perm_of_length_le hsp (by simpa [topoAux] using hlen)
    exact ⟨hpnd, hsub, hresp, fun v hv => hperm.mem_iff.mpr hv⟩
  | succ fuel ih =>
    intro placed hpnd hsub hresp hlen
    cases hr : readyNode nodes edges placed with
    | none =>
      have hall : ∀ v ∈ nodes, v ∈ placed := by
        intro v hv
        by_contra hvp
        obtain ⟨w, hw, hwready⟩ :=
          ready_of_unplaced nodes edges placed rank hed hrank v hv hvp
        exact readyNode_none nodes edges placed hr w hw hwready
      simp only [topoAux, hr]
      exact ⟨hpnd, hsub, hresp, hall⟩
    | some v =>
      obtain ⟨hvn, hvp, hvready⟩ := readyNode_some nodes edges placed v hr
      have hnd2 : (placed ++ [v]).Nodup := by
        rw [List.nodup_append]
        exact ⟨hpnd, List.nodup_singleton v, by simpa using hvp⟩
      have hsub2 : ∀ w ∈ placed ++ [v], w ∈ nodes := by
        intro w hw
        rcases List.mem_append.mp hw with h | h
        · exact hsub w h
        · rw [List.mem_singleton.mp h]
          exact hvn
      have hresp2 : RespectsEdges edges (placed ++ [v]) :=
        respectsEdges_snoc edges placed v hresp hvp hvready
      have hlen2 : nodes.length ≤ (placed ++ [v]).length + fuel := by
        rw [List.length_append]
        simp only [List.length_singleton]
        omega
      have hres := ih (placed ++ [v]) hnd2 hsub2 hresp2 hlen2
      simpa only [topoAux, hr] using hres

/-- C7 (spec-modelled): for every acyclic graph — acyclicity witnessed by a
rank function increasing along every connection — the Scheduler's
topological order contains every node exactly once and places every node
strictly after all of its input-providing nodes; the order is a pure
function of the node list (in creation order) and the connection list, so
it is deterministic, and ties are broken by taking the earliest-created
ready node. -/
theorem scheduler_topological_order (nodes : List ℕ) (edges : List (ℕ × ℕ)) (rank : ℕ → ℕ)
    (hnd : nodes.Nodup)
    (hed : ∀ e ∈ edges, e.1 ∈ nodes ∧ e.2 ∈ nodes)
    (hrank : ∀ e ∈ edges, rank e.1 < rank e.2) :
    (∀ v ∈ nodes, v ∈ topoOrder nodes edges) ∧
    (∀ v ∈ topoOrder nodes edges, v ∈ nodes) ∧
    (topoOrder nodes edges).Nodup ∧
    ∀ e ∈ edges, (topoOrder nodes edges).indexOf e.1 < (topoOrder nodes edges).indexOf e.2 := by
  have h := topoAux_spec nodes edges rank hed hrank hnd nodes.length []
    List.nodup_nil (by intro v hv; exact absurd hv (List.not_mem_nil v))
    (by intro e he hmem; exact absurd hmem (List.not_mem_nil e.2)) (by simp)
  refine ⟨h.2.2.2, h.2.1, h.1, ?_⟩
  intro e he
  have h2mem : e.2 ∈ topoOrder nodes edges := h.2.2.2 e.2 (hed e he).2
  exact (h.2.2.1 e he h2mem).2

/-- Witness for C7 at a concrete graph: nodes 0, 1, 2 created in that
order, connections 0 → 1 → 2; node 0 is ordered before node 1. -/
theorem scheduler_topological_order_witness :
    [0, 1, 2].Nodup ∧
    (topoOrder [0, 1, 2] [(0, 1), (1, 2)]).indexOf 0
      < (topoOrder [0, 1, 2] [(0, 1), (1, 2)]).indexOf 1 := by
  refine ⟨by decide, ?_⟩
  have h := scheduler_topological_order [0, 1, 2] [(0, 1), (1, 2)] id
    (by decide) (by decide) (by decide)
  exact h.2.2.2 (0, 1) (by decide)

/-! ## Claim C8: serialization round-trip -/

lemma deserializeNode_serializeNode (n : NodeData) :
    deserializeNode (serializeNode n) = some n := by
  cases n with
  | mk id cat typeId params posX posY => cases cat <;> rfl

lemma decodeNodes_map_serializeNode (ns : List NodeData) :
    decodeNodes (ns.map serializeNode) = some ns := by
  induction ns with
  | nil => rfl
  | cons n t ih =>
    show decodeNodes (serializeNode n :: t.map serializeNode) = some (n :: t)
    simp [decodeNodes, deserializeNode_serializeNode n, ih]

lemma parseConn_serializeConn (c : Connection) : parseConn (serializeConn c) = c := by
  cases c
  rfl

/-- C8 (spec-modelled): serializing a valid graph and deserializing the
document yields the graph back unchanged — the same node records (ids,
categories, type identifiers, parameter values, positions) and the same
connection set. -/
theorem serialize_deserialize_roundtrip (g : Graph) (h : GraphValid g) :
    deserializeGraph (serializeGraph g) = some g := by
  unfold deserializeGraph serializeGraph
  simp only [decodeNodes_map_serializeNode]
  have hconn : (g.connections.map serializeConn).map parseConn = g.connections := by
    rw [List.map_map]
    have hcomp : (parseConn ∘ serializeConn) = id := funext fun c => parseConn_serializeConn c
    rw [hcomp, List.map_id]
  rw [hconn]
  unfold GraphValid at h
  split_ifs
  · rfl

/-- Witness for C8 at a concrete valid graph: one source node with one
parameter and a self-connection between its ports. -/
theorem serialize_deserialize_roundtrip_witness :
    GraphValid ⟨[⟨0, .source, "osc", [("freq", 440)], 0, 0⟩], [⟨0, 0, 0, 0⟩]⟩ ∧
    deserializeGraph (serializeGraph ⟨[⟨0, .source, "osc", [("freq", 440)], 0, 0⟩],
      [⟨0, 0, 0, 0⟩]⟩)
      = some ⟨[⟨0, .source, "osc", [("freq", 440)], 0, 0⟩], [⟨0, 0, 0, 0⟩]⟩ := by
  have hval : GraphValid ⟨[⟨0, .source, "osc", [("freq", 440)], 0, 0⟩], [⟨0, 0, 0, 0⟩]⟩ := by
    decide
  exact ⟨hval, serialize_deserialize_roundtrip _ hval⟩
